import Mathlib

/-!
Verification of the DogMidiKey event-correction engine
(src/dog_midi_system.py) against its natural-language specification.

Real-valued quantities (seconds, beats, tempo) are embedded as rationals,
MIDI pitches and velocities as integers, and the mutable session object as
an explicit state record.  Fallible operations return an explicit error
value in place of the Python early-return-with-message branches.
-/

namespace DogMidi

/-- Python float modulo: for a positive modulus m, x % m = x - m * floor (x/m),
the representative in [0, m).  Used for the beat computation. -/
def fmod (x m : ℚ) : ℚ := x - m * ⌊x / m⌋

/-- A decoded raw note as delivered by the decoding collaborator
(pretty_midi): pitch, velocity, onset and release time in seconds. -/
structure RawNote where
  pitch : ℤ
  velocity : ℤ
  start : ℚ
  finish : ℚ
deriving DecidableEq

/-- A note of the reference timeline (class NoteEvent, lines 18-26). -/
structure NoteEvent where
  note : ℤ
  velocity : ℤ
  start_time : ℚ
  duration : ℚ
  bar : ℤ
  beat : ℚ
deriving DecidableEq

/-- One instrument track of the decoded file (pretty_midi.Instrument). -/
structure Instrument where
  is_drum : Bool
  notes : List RawNote
deriving DecidableEq

/-- The decoded MIDI file as seen through the decoding collaborator's
interface: a list of tempo changes and the instrument tracks. -/
structure MidiFile where
  tempo_changes : List ℚ
  instruments : List Instrument
deriving DecidableEq

/-- Conversion of one raw note into a NoteEvent (lines 67-82):
beat_duration = 60/tempo, total_beats = start / beat_duration,
bar = floor (total_beats / beats_per_bar), beat = total_beats % beats_per_bar. -/
def toNoteEvent (tempo : ℚ) (beats_per_bar : ℤ) (n : RawNote) : NoteEvent :=
  let beat_duration : ℚ := 60 / tempo
  let total_beats : ℚ := n.start / beat_duration
  { note := n.pitch
    velocity := n.velocity
    start_time := n.start
    duration := n.finish - n.start
    bar := ⌊total_beats / (beats_per_bar : ℚ)⌋
    beat := fmod total_beats (beats_per_bar : ℚ) }

/-- The analysis step of load_midi_file (lines 64-86): convert every raw
note and sort the result by start time.  List.mergeSort is a stable sort,
matching the stability of Python's list.sort. -/
def analyze (tempo : ℚ) (beats_per_bar : ℤ) (rawNotes : List RawNote) :
    List NoteEvent :=
  (rawNotes.map (toNoteEvent tempo beats_per_bar)).mergeSort
    (fun a b => decide (a.start_time ≤ b.start_time))

/-- The C major scale used by the fallback melody (line 98). -/
def c_major_scale : List ℤ := [60, 62, 64, 65, 67, 69, 71, 72]

/-- create_fallback_melody (lines 95-114): the scale repeated four times;
note i starts at i * beat_duration, lasts 0.8 * beat_duration, has
velocity 80, bar = i // 8 and beat = (i % 8) / 2. -/
def create_fallback_melody (tempo : ℚ) : List NoteEvent :=
  let beat_duration : ℚ := 60 / tempo
  (List.enum
      (c_major_scale ++ c_major_scale ++ c_major_scale ++ c_major_scale)).map
    (fun p =>
      { note := p.2
        velocity := 80
        start_time := (p.1 : ℚ) * beat_duration
        duration := beat_duration * (4/5)
        bar := ((p.1 / 8 : ℕ) : ℤ)
        beat := ((p.1 % 8 : ℕ) : ℚ) / 2 })

/-- load_midi_file (lines 54-93): on a successful decode, take the first
tempo change if any, convert and sort the notes of the non-drum
instruments; on decode failure, keep the current tempo and substitute the
fallback melody.  Returns the resulting tempo and reference melody. -/
def load_midi_file (tempo : ℚ) (beats_per_bar : ℤ)
    (decoded : Except Unit MidiFile) : ℚ × List NoteEvent :=
  match decoded with
  | .error _ => (tempo, create_fallback_melody tempo)
  | .ok midi_data =>
    let tempo1 := match midi_data.tempo_changes with
      | [] => tempo
      | t :: _ => t
    let raw := (midi_data.instruments.filter (fun ins => !ins.is_drum)).flatMap
      (fun ins => ins.notes)
    (tempo1, analyze tempo1 beats_per_bar raw)

/-- The mutable session object (the DogMidiSystem instance fields that the
claims touch).  midi_input and midi_output are the optionally-open device
handles; melody_index is the SequentialAdvance cursor. -/
structure SystemState where
  original_notes : List NoteEvent
  melody_index : ℕ
  tempo : ℚ
  beats_per_bar : ℤ
  is_playing : Bool
  start_time : Option ℚ
  midi_input : Option Unit
  midi_output : Option Unit
  timing_tolerance : ℚ
  pitch_correction_range : ℤ
  randomness_factor : ℚ
deriving DecidableEq

/-- The combined score of a candidate (line 199):
pitch_diff * 0.7 + beat_diff * 0.3, lower is better. -/
def score (input_note : ℤ) (current_beat : ℚ) (e : NoteEvent) : ℚ :=
  ((|e.note - input_note| : ℤ) : ℚ) * (7/10) + |e.beat - current_beat| * (3/10)

/-- find_closest_note (lines 171-205): restrict to notes of the current or
an adjacent bar, skip candidates outside the pitch range or the timing
tolerance (converted to beats), and keep the strictly best-scoring
survivor, earliest first. -/
def find_closest_note (st : SystemState) (input_note : ℤ) (current_bar : ℤ)
    (current_beat : ℚ) : Option NoteEvent :=
  let candidate_notes :=
    st.original_notes.filter (fun e => decide (|e.bar - current_bar| ≤ 1))
  if candidate_notes = [] then none
  else
    candidate_notes.foldl
      (fun best note_event =>
        if |note_event.note - input_note| > st.pitch_correction_range then best
        else if |note_event.beat - current_beat| >
            st.timing_tolerance * st.tempo / 60 then best
        else
          match best with
          | none => some note_event
          | some b =>
            if score input_note current_beat note_event <
                score input_note current_beat b then
              some note_event
            else best)
      none

/-- The survivors of both rejection filters of find_closest_note, in
timeline order: bar within one of the current bar, pitch within the
correction range, beat within the converted timing tolerance. -/
def survivors (st : SystemState) (input_note : ℤ) (current_bar : ℤ)
    (current_beat : ℚ) : List NoteEvent :=
  (st.original_notes.filter (fun e => decide (|e.bar - current_bar| ≤ 1))).filter
    (fun e =>
      !(decide (|e.note - input_note| > st.pitch_correction_range)) &&
      !(decide (|e.beat - current_beat| > st.timing_tolerance * st.tempo / 60)))

/-- One draw of the random source consumed by apply_randomness: the
uniform [0,1) sample of random.random() and the two randint deltas. -/
structure Rand where
  r : ℚ
  dn : ℤ
  dv : ℤ
deriving DecidableEq

/-- apply_randomness (lines 207-218): with probability randomness_factor,
shift the pitch by at most 2 and the velocity by at most 10, clamping to
[0,127] and [1,127] respectively; otherwise return the inputs unchanged. -/
def apply_randomness (randomness_factor : ℚ) (g : Rand) (note velocity : ℤ) :
    ℤ × ℤ :=
  if g.r < randomness_factor then
    (max 0 (min 127 (note + g.dn)), max 1 (min 127 (velocity + g.dv)))
  else
    (note, velocity)

/-- The error outcomes of the modelled operations: the early-return
branches of process_input_note and start. -/
inductive MidiError where
  | emptyMelody
  | indexError
  | deviceUnavailable
deriving DecidableEq

/-- process_input_note (lines 220-245): ignore the input entirely, take
the note at the cursor, advance the cursor modulo the melody length, apply
randomness and hand the corrected pair to the output sink.  An empty
melody is the EmptyMelody early return: nothing emitted, state unchanged. -/
def process_input_note (st : SystemState) (g : Rand)
    (input_note velocity : ℤ) : Except MidiError (ℤ × ℤ) × SystemState :=
  if st.original_notes = [] then (.error .emptyMelody, st)
  else
    match st.original_notes[st.melody_index]? with
    | none => (.error .indexError, st)
    | some note_event =>
      let st1 :=
        { st with melody_index :=
            (st.melody_index + 1) % st.original_notes.length }
      (.ok (apply_randomness st.randomness_factor g
        note_event.note note_event.velocity), st1)

/-- The cursor value after k calls of the SequentialAdvance step over a
melody of length n, each call replacing the cursor i by (i + 1) % n. -/
def melodyCursorAfter (n c k : ℕ) : ℕ := (fun i => (i + 1) % n)^[k] c

/-- start (lines 267-282): with no input device, the DeviceUnavailable
early return leaves the state untouched and spawns no listener; otherwise
set the playing flag and the session start instant and spawn the listener
(the returned Bool). -/
def start (st : SystemState) (now : ℚ) :
    Except MidiError Unit × SystemState × Bool :=
  match st.midi_input with
  | none => (.error .deviceUnavailable, st, false)
  | some _ =>
    (.ok (), { st with is_playing := true, start_time := some now }, true)

/-- Modelled from the spec: the device-session collaborator (pygame.midi)
is outside the repository, so its state is embedded per the interface
boundary of spec section 6 as an initialized flag plus an open flag per
handle; releasing a handle and shutting the subsystem down are plain state
updates with no failure mode. -/
structure MidiSubsystem where
  initialized : Bool
  input_open : Bool
  output_open : Bool
deriving DecidableEq

/-- stop (lines 292-300): clear the playing flag, close the input and
output handles when present, and shut the device subsystem down. -/
def stop (st : SystemState) (dev : MidiSubsystem) :
    SystemState × MidiSubsystem :=
  let st1 := { st with is_playing := false }
  let dev1 := if st.midi_input.isSome then { dev with input_open := false }
    else dev
  let dev2 := if st.midi_output.isSome then { dev1 with output_open := false }
    else dev1
  (st1, { dev2 with initialized := false })

/-- The bar/beat formula the specification prescribes for ordinary notes,
applied to the index-derived start time of fallback note i
(start = i * beatDuration): used to compare against the fallback code. -/
def fallback_bar_beat_formula (tempo : ℚ) (beats_per_bar : ℤ) (i : ℕ) :
    ℤ × ℚ :=
  let beat_duration : ℚ := 60 / tempo
  let start_time : ℚ := (i : ℚ) * beat_duration
  let total_beats : ℚ := start_time / beat_duration
  (⌊total_beats / (beats_per_bar : ℚ)⌋, fmod total_beats (beats_per_bar : ℚ))

/-- The loop body of find_closest_note, abstracted over the score: keep
the incumbent unless the new element scores strictly lower. -/
def pickMin {α : Type} (f : α → ℚ) (best : Option α) (e : α) : Option α :=
  match best with
  | none => some e
  | some b => if f e < f b then some e else some b

/-- A decoded file with no tempo changes and no instruments. -/
def emptyMidiFile : MidiFile := { tempo_changes := [], instruments := [] }

/-- A freshly constructed session with the default configuration of
DogMidiSystem.__init__ and no melody or devices. -/
def baseState : SystemState where
  original_notes := []
  melody_index := 0
  tempo := 120
  beats_per_bar := 4
  is_playing := false
  start_time := none
  midi_input := none
  midi_output := none
  timing_tolerance := 1/2
  pitch_correction_range := 12
  randomness_factor := 1/10

/-- A concrete reference note used by the witnesses. -/
def noteA : NoteEvent :=
  { note := 60, velocity := 80, start_time := 0, duration := 1/2,
    bar := 0, beat := 0 }

/-- A second concrete reference note used by the witnesses. -/
def noteB : NoteEvent :=
  { note := 64, velocity := 90, start_time := 1/2, duration := 1/2,
    bar := 0, beat := 1 }

/-- A session holding a two-note melody with open devices. -/
def melState : SystemState :=
  { baseState with
    original_notes := [noteA, noteB]
    midi_input := some ()
    midi_output := some () }

/-- The SequentialAdvance cursor after k calls is the initial cursor
shifted by k, modulo the melody length. -/
theorem melodyCursorAfter_eq (n c k : ℕ) (hc : c < n) :
    melodyCursorAfter n c k = (c + k) % n := by
  induction k with
  | zero => simp [melodyCursorAfter, Nat.mod_eq_of_lt hc]
  | succ k ih =>
    rw [melodyCursorAfter, Function.iterate_succ_apply',
      ← melodyCursorAfter, ih, Nat.mod_add_mod, Nat.add_assoc]

/-- C10: in the live input path the emitted (pitch, velocity) pair and the
successor state are fully determined by the engine state and the random
draw; two triggers with different input pitches and velocities processed
from the same state produce identical results, so neither the input pitch
nor the input velocity influences the output. -/
theorem C10_output_independent_of_input (st : SystemState) (g : Rand)
    (p1 v1 p2 v2 : ℤ) :
    process_input_note st g p1 v1 = process_input_note st g p2 v2 := rfl

/-- C8: invoking the correction step with an empty reference melody fails
fast with EmptyMelody, emits no output pair, and leaves the engine state
unchanged. -/
theorem C8_empty_melody (st : SystemState) (g : Rand) (p v : ℤ)
    (h : st.original_notes = []) :
    process_input_note st g p v = (.error .emptyMelody, st) := by
  simp [process_input_note, h]

/-- Witness for C8 at a concrete freshly constructed session. -/
theorem C8_empty_melody_witness :
    process_input_note baseState { r := 0, dn := 0, dv := 0 } 60 100 =
      (.error .emptyMelody, baseState) :=
  C8_empty_melody baseState { r := 0, dn := 0, dv := 0 } 60 100 rfl

/-- C7: when no input device is available, start fails with
DeviceUnavailable, the session state is returned unchanged (so the session
stays Idle, the start instant stays unset and the playing flag stays
down), and no listener worker is spawned. -/
theorem C7_device_unavailable (st : SystemState) (now : ℚ)
    (h : st.midi_input = none) :
    start st now = (.error .deviceUnavailable, st, false) ∧
    (start st now).2.1.start_time = st.start_time ∧
    (start st now).2.1.is_playing = st.is_playing := by
  refine ⟨?_, ?_, ?_⟩ <;> simp [start, h]

/-- Witness for C7 at a concrete Idle session without devices. -/
theorem C7_device_unavailable_witness :
    start baseState 0 = (.error .deviceUnavailable, baseState, false) ∧
    (start baseState 0).2.1.start_time = baseState.start_time ∧
    (start baseState 0).2.1.is_playing = baseState.is_playing :=
  C7_device_unavailable baseState 0 rfl

/-- C6: stop is idempotent: running it a second time reproduces exactly
the session state and device-subsystem state of the first run, with no
error possible (stop is a total function in this model), and the session
ends in the Stopped state with the playing flag down. -/
theorem C6_stop_idempotent (st : SystemState) (dev : MidiSubsystem) :
    stop (stop st dev).1 (stop st dev).2 = stop st dev ∧
    (stop st dev).1.is_playing = false := by
  constructor
  · cases h1 : st.midi_input <;> cases h2 : st.midi_output <;>
      simp [stop, h1, h2]
  · simp [stop]

/-- C5: apply_randomness with factor 0 never alters pitch or velocity for
any random draw, and with factor 1 the clamped result stays within the
valid MIDI domains and within 2 semitones respectively 10 velocity steps
of the input. -/
theorem C5_randomness_bounds (g : Rand) (note velocity : ℤ)
    (hr0 : 0 ≤ g.r) (hr1 : g.r < 1)
    (hdn : -2 ≤ g.dn ∧ g.dn ≤ 2) (hdv : -10 ≤ g.dv ∧ g.dv ≤ 10)
    (hn : 0 ≤ note ∧ note ≤ 127) (hv : 1 ≤ velocity ∧ velocity ≤ 127) :
    apply_randomness 0 g note velocity = (note, velocity) ∧
    0 ≤ (apply_randomness 1 g note velocity).1 ∧
    (apply_randomness 1 g note velocity).1 ≤ 127 ∧
    |(apply_randomness 1 g note velocity).1 - note| ≤ 2 ∧
    1 ≤ (apply_randomness 1 g note velocity).2 ∧
    (apply_randomness 1 g note velocity).2 ≤ 127 ∧
    |(apply_randomness 1 g note velocity).2 - velocity| ≤ 10 := by
  have h0 : ¬ (g.r < 0) := not_lt.mpr hr0
  obtain ⟨hdn1, hdn2⟩ := hdn
  obtain ⟨hdv1, hdv2⟩ := hdv
  obtain ⟨hn1, hn2⟩ := hn
  obtain ⟨hv1, hv2⟩ := hv
  refine ⟨by simp [apply_randomness, h0], ?_, ?_, ?_, ?_, ?_, ?_⟩ <;>
    simp only [apply_randomness, if_pos hr1] <;>
    first
      | omega
      | (rw [abs_le]; omega)

/-- Witness for C5 at a concrete draw and a concrete note. -/
theorem C5_randomness_bounds_witness :
    apply_randomness 0 { r := 1/2, dn := 2, dv := -10 } 126 5 = (126, 5) ∧
    0 ≤ (apply_randomness 1 { r := 1/2, dn := 2, dv := -10 } 126 5).1 ∧
    (apply_randomness 1 { r := 1/2, dn := 2, dv := -10 } 126 5).1 ≤ 127 ∧
    |(apply_randomness 1 { r := 1/2, dn := 2, dv := -10 } 126 5).1 - 126| ≤ 2 ∧
    1 ≤ (apply_randomness 1 { r := 1/2, dn := 2, dv := -10 } 126 5).2 ∧
    (apply_randomness 1 { r := 1/2, dn := 2, dv := -10 } 126 5).2 ≤ 127 ∧
    |(apply_randomness 1 { r := 1/2, dn := 2, dv := -10 } 126 5).2 - 5| ≤ 10 :=
  C5_randomness_bounds { r := 1/2, dn := 2, dv := -10 } 126 5
    (by norm_num) (by norm_num) (by norm_num) (by norm_num)
    (by norm_num) (by norm_num)

/-- C3: under SequentialAdvance, a call from a state whose cursor is in
range is independent of the input pitch and velocity, hands the note at
the cursor to the randomness stage, advances the cursor to
(cursor + 1) mod length, and after length further calls the cursor is back
where it started, so the (N+1)-th call selects the same note as the first. -/
theorem C3_sequential_advance (st : SystemState) (g : Rand)
    (p1 v1 p2 v2 : ℤ) (h : st.melody_index < st.original_notes.length) :
    process_input_note st g p1 v1 = process_input_note st g p2 v2 ∧
    process_input_note st g p1 v1 =
      (.ok (apply_randomness st.randomness_factor g
          (st.original_notes.get ⟨st.melody_index, h⟩).note
          (st.original_notes.get ⟨st.melody_index, h⟩).velocity),
        { st with melody_index :=
            (st.melody_index + 1) % st.original_notes.length }) ∧
    melodyCursorAfter st.original_notes.length st.melody_index
      st.original_notes.length = st.melody_index := by
  have hne : ¬ (st.original_notes = []) := by
    intro he
    rw [he] at h
    exact absurd h (by simp)
  refine ⟨rfl, ?_, ?_⟩
  · simp [process_input_note, hne, List.getElem?_eq_getElem h]
  · rw [melodyCursorAfter_eq _ _ _ h, Nat.add_mod_right, Nat.mod_eq_of_lt h]

/-- Witness for C3: from the two-note session the call emits the first
note unchanged (the draw skips the randomness branch), the cursor moves to
1, and two further calls would bring it back to 0. -/
theorem C3_sequential_advance_witness :
    process_input_note melState { r := 1/2, dn := 0, dv := 0 } 55 100 =
      process_input_note melState { r := 1/2, dn := 0, dv := 0 } 72 40 ∧
    process_input_note melState { r := 1/2, dn := 0, dv := 0 } 55 100 =
      (.ok (60, 80), { melState with melody_index := 1 }) ∧
    melodyCursorAfter 2 0 2 = 0 := by
  obtain ⟨h1, h2, h3⟩ :=
    C3_sequential_advance melState { r := 1/2, dn := 0, dv := 0 }
      55 100 72 40 (by decide)
  refine ⟨h1, ?_, h3⟩
  rw [h2]
  norm_num [apply_randomness, melState, baseState, noteA, noteB]

/-- C1 fails on the code: at index 1 of the fallback melody (tempo 120,
4 beats per bar) the code stores bar 0 and beat 1/2, whereas the
ordinary-note formula applied to the index-derived start time yields bar 0
and beat 1. -/
theorem C1_counterexample :
    ((create_fallback_melody 120)[1]?.map fun e => (e.bar, e.beat)) =
      some ((0 : ℤ), (1/2 : ℚ)) ∧
    fallback_bar_beat_formula 120 4 1 = ((0 : ℤ), (1 : ℚ)) ∧
    ((0 : ℤ), (1/2 : ℚ)) ≠ ((0 : ℤ), (1 : ℚ)) := by
  refine ⟨?_, ?_, by norm_num⟩
  · rw [create_fallback_melody, List.getElem?_map, List.getElem?_enum]
    norm_num [c_major_scale]
  · rw [fallback_bar_beat_formula, fmod]
    norm_num

/-- C1 amended: every fallback-melody note at index i carries
bar = i / 8 (integer division) and beat = (i mod 8) / 2, the hard-coded
values of create_fallback_melody, not the values of the ordinary-note
formula applied to its index-derived start time. -/
theorem C1_fallback_bar_beat (tempo : ℚ) (i : ℕ) (e : NoteEvent)
    (h : (create_fallback_melody tempo)[i]? = some e) :
    e.bar = ((i / 8 : ℕ) : ℤ) ∧ e.beat = ((i % 8 : ℕ) : ℚ) / 2 := by
  rw [create_fallback_melody, List.getElem?_map, List.getElem?_enum] at h
  rcases hx : (c_major_scale ++ c_major_scale ++ c_major_scale ++
      c_major_scale)[i]? with _ | a
  · rw [hx] at h
    exact absurd h (by simp)
  · rw [hx] at h
    simp only [Option.map_some', Option.some_inj] at h
    rw [← h]
    exact ⟨rfl, rfl⟩

/-- Witness for C1 amended at tempo 120 and index 1. -/
theorem C1_fallback_bar_beat_witness :
    ∃ e, (create_fallback_melody 120)[1]? = some e ∧
      e.bar = ((1 / 8 : ℕ) : ℤ) ∧ e.beat = ((1 % 8 : ℕ) : ℚ) / 2 := by
  have h : (create_fallback_melody 120)[1]? = some
      { note := 62, velocity := 80, start_time := 1/2,
        duration := (1/2) * (4/5), bar := 0, beat := 1/2 } := by
    rw [create_fallback_melody, List.getElem?_map, List.getElem?_enum]
    norm_num [c_major_scale]
  exact ⟨_, h, C1_fallback_bar_beat 120 1 _ h⟩

/-- C2 fails on the code: a decode that succeeds with an empty raw note
list produces an empty reference melody, not the 32-note fallback; the
fallback is substituted only when the decode collaborator signals
failure. -/
theorem C2_counterexample :
    (load_midi_file 120 4 (Except.ok emptyMidiFile)).2 = [] ∧
    (create_fallback_melody 120).length = 32 ∧
    (load_midi_file 120 4 (Except.ok emptyMidiFile)).2 ≠
      create_fallback_melody 120 := by
  have h1 : (load_midi_file 120 4 (Except.ok emptyMidiFile)).2 = [] := by
    simp [load_midi_file, emptyMidiFile, analyze]
  have h2 : (create_fallback_melody 120).length = 32 := by
    simp [create_fallback_melody, c_major_scale]
  refine ⟨h1, h2, ?_⟩
  rw [h1]
  intro hc
  rw [← hc] at h2
  exact absurd h2 (by simp)

/-- C2 amended: whenever the decode collaborator signals failure, the
reference melody is the fallback melody: exactly 32 notes, the ascending
major scale repeated four times (so first pitch 60 and last pitch 72),
every velocity 80, note i starting at i times the beat duration with
duration 0.8 times the beat duration.  An empty successfully decoded note
list instead yields an empty melody. -/
theorem C2_fallback_on_decode_failure (tempo : ℚ) (bpb : ℤ) :
    (load_midi_file tempo bpb (Except.error ())).2 =
      create_fallback_melody tempo ∧
    (create_fallback_melody tempo).length = 32 ∧
    (create_fallback_melody tempo).map (fun e => e.note) =
      c_major_scale ++ c_major_scale ++ c_major_scale ++ c_major_scale ∧
    ((create_fallback_melody tempo)[0]?.map fun e => e.note) = some 60 ∧
    ((create_fallback_melody tempo)[31]?.map fun e => e.note) = some 72 ∧
    ∀ (i : ℕ) (e : NoteEvent), (create_fallback_melody tempo)[i]? = some e →
      e.velocity = 80 ∧ e.start_time = (i : ℚ) * (60 / tempo) ∧
      e.duration = (60 / tempo) * (4/5) := by
  have hmap : (create_fallback_melody tempo).map (fun e => e.note) =
      c_major_scale ++ c_major_scale ++ c_major_scale ++ c_major_scale := by
    rw [create_fallback_melody, List.map_map]
    exact List.enum_map_snd _
  refine ⟨rfl, ?_, hmap, ?_, ?_, ?_⟩
  · simp [create_fallback_melody, c_major_scale]
  · rw [create_fallback_melody, List.getElem?_map, List.getElem?_enum]
    norm_num [c_major_scale]
  · rw [create_fallback_melody, List.getElem?_map, List.getElem?_enum]
    norm_num [c_major_scale]
  · intro i e h
    rw [create_fallback_melody, List.getElem?_map, List.getElem?_enum] at h
    rcases hx : (c_major_scale ++ c_major_scale ++ c_major_scale ++
        c_major_scale)[i]? with _ | a
    · rw [hx] at h
      exact absurd h (by simp)
    · rw [hx] at h
      simp only [Option.map_some', Option.some_inj] at h
      rw [← h]
      exact ⟨rfl, rfl, rfl⟩

/-- Witness for C2 amended at tempo 120: the melody equals the fallback,
has 32 notes, and its note 0 has velocity 80, start 0 and duration 0.4
seconds. -/
theorem C2_fallback_on_decode_failure_witness :
    (load_midi_file 120 4 (Except.error ())).2 =
      create_fallback_melody 120 ∧
    (create_fallback_melody 120).length = 32 ∧
    ∃ e, (create_fallback_melody 120)[0]? = some e ∧
      e.velocity = 80 ∧ e.start_time = 0 ∧ e.duration = 2/5 := by
  obtain ⟨h1, h2, _, _, _, h6⟩ := C2_fallback_on_decode_failure 120 4
  have h : (create_fallback_melody 120)[0]? = some
      { note := 60, velocity := 80, start_time := 0,
        duration := (1/2) * (4/5), bar := 0, beat := 0 } := by
    rw [create_fallback_melody, List.getElem?_map, List.getElem?_enum]
    norm_num [c_major_scale]
  obtain ⟨hv, hs, hd⟩ := h6 0 _ h
  refine ⟨h1, h2, _, h, hv, ?_, ?_⟩
  · rw [hs]; norm_num
  · rw [hd]; norm_num

/-- The comparison used by analyze is transitive. -/
theorem startTimeLe_trans (a b c : NoteEvent)
    (hab : (fun a b => decide (a.start_time ≤ b.start_time)) a b = true)
    (hbc : (fun a b => decide (a.start_time ≤ b.start_time)) b c = true) :
    (fun a b => decide (a.start_time ≤ b.start_time)) a c = true := by
  simp only [decide_eq_true_eq] at *
  exact le_trans hab hbc

/-- The comparison used by analyze is total. -/
theorem startTimeLe_total (a b : NoteEvent) :
    ((fun a b => decide (a.start_time ≤ b.start_time)) a b ||
     (fun a b => decide (a.start_time ≤ b.start_time)) b a) = true := by
  simp only [Bool.or_eq_true, decide_eq_true_eq]
  exact le_total a.start_time b.start_time

/-- C9: for every raw note list the analyze step preserves the note count,
produces a sequence sorted ascending by start time, and is stable: for
every start-time value the subsequence of notes carrying it is exactly the
subsequence of the converted input, in the original relative order. -/
theorem C9_analyze_sorted_stable_count (tempo : ℚ) (bpb : ℤ)
    (raw : List RawNote) :
    (analyze tempo bpb raw).length = raw.length ∧
    (analyze tempo bpb raw).Pairwise
      (fun a b => a.start_time ≤ b.start_time) ∧
    ∀ t : ℚ,
      (analyze tempo bpb raw).filter (fun e => decide (e.start_time = t)) =
      (raw.map (toNoteEvent tempo bpb)).filter
        (fun e => decide (e.start_time = t)) := by
  refine ⟨?_, ?_, ?_⟩
  · rw [analyze, List.length_mergeSort, List.length_map]
  · exact (List.sorted_mergeSort startTimeLe_trans startTimeLe_total
      (raw.map (toNoteEvent tempo bpb))).imp (fun h => of_decide_eq_true h)
  · intro t
    have hpair : ∀ (l : List NoteEvent),
        ((l.filter (fun e => decide (e.start_time = t))).Pairwise
          (fun a b => (fun a b => decide (a.start_time ≤ b.start_time)) a b
            = true)) := by
      intro l
      apply List.pairwise_of_forall_mem_list
      intro a ha b hb
      have ha' : a.start_time = t :=
        of_decide_eq_true (List.mem_filter.mp ha).2
      have hb' : b.start_time = t :=
        of_decide_eq_true (List.mem_filter.mp hb).2
      simp only [decide_eq_true_eq]
      rw [ha', hb']
    set l := raw.map (toNoteEvent tempo bpb) with hl
    set p : NoteEvent → Bool := fun e => decide (e.start_time = t) with hp
    have hsub : (l.filter p).Sublist (analyze tempo bpb raw) :=
      List.sublist_mergeSort startTimeLe_trans startTimeLe_total (hpair l)
        (List.filter_sublist l)
    have hsub2 : (l.filter p).Sublist
        ((analyze tempo bpb raw).filter p) := by
      have := List.Sublist.filter p hsub
      rwa [List.filter_filter, (by
        funext a
        rw [Bool.and_self] : (fun a => p a && p a) = p)] at this
    have hperm : ((analyze tempo bpb raw).filter p).Perm (l.filter p) :=
      (List.mergeSort_perm l _).filter p
    exact (hsub2.eq_of_length hperm.length_eq.symm).symm

/-- The score of any candidate is non-negative. -/
theorem score_nonneg (input_note : ℤ) (current_beat : ℚ) (e : NoteEvent) :
    0 ≤ score input_note current_beat e := by
  rw [score]
  have h1 : (0 : ℚ) ≤ ((|e.note - input_note| : ℤ) : ℚ) := by
    exact_mod_cast abs_nonneg (e.note - input_note)
  have h2 : (0 : ℚ) ≤ |e.beat - current_beat| := abs_nonneg _
  nlinarith

/-- Folding pickMin from an incumbent yields either the incumbent, when
nothing in the list strictly improves on it, or the earliest element that
attains the minimum and strictly improves on the incumbent. -/
theorem foldl_pickMin_some {α : Type} (f : α → ℚ) (l : List α) : ∀ (b : α),
    ∃ e, l.foldl (pickMin f) (some b) = some e ∧
      ((e = b ∧ ∀ x ∈ l, f b ≤ f x) ∨
       (∃ pre post, l = pre ++ e :: post ∧ f e < f b ∧
         (∀ x ∈ pre, f e < f x) ∧ (∀ x ∈ post, f e ≤ f x))) := by
  induction l with
  | nil =>
    intro b
    exact ⟨b, rfl, Or.inl ⟨rfl, by simp⟩⟩
  | cons a t ih =>
    intro b
    rw [List.foldl_cons]
    by_cases hab : f a < f b
    · have hpick : pickMin f (some b) a = some a := by
        simp [pickMin, hab]
      rw [hpick]
      obtain ⟨e, he, hch⟩ := ih a
      refine ⟨e, he, Or.inr ?_⟩
      rcases hch with ⟨rfl, hall⟩ | ⟨pre, post, heq, hlt, hpre, hpost⟩
      · exact ⟨[], t, rfl, hab, by simp, hall⟩
      · refine ⟨a :: pre, post, by simp [heq], lt_trans hlt hab, ?_, hpost⟩
        intro x hx
        rcases List.mem_cons.mp hx with rfl | hx
        · exact hlt
        · exact hpre x hx
    · have hpick : pickMin f (some b) a = some b := by
        simp [pickMin, hab]
      rw [hpick]
      obtain ⟨e, he, hch⟩ := ih b
      refine ⟨e, he, ?_⟩
      rcases hch with ⟨rfl, hall⟩ | ⟨pre, post, heq, hlt, hpre, hpost⟩
      · refine Or.inl ⟨rfl, ?_⟩
        intro x hx
        rcases List.mem_cons.mp hx with rfl | hx
        · exact not_lt.mp hab
        · exact hall x hx
      · refine Or.inr ⟨a :: pre, post, by simp [heq], hlt, ?_, hpost⟩
        intro x hx
        rcases List.mem_cons.mp hx with rfl | hx
        · exact lt_of_lt_of_le hlt (not_lt.mp hab)
        · exact hpre x hx

/-- Folding pickMin over a non-empty list with no incumbent returns the
earliest minimizer: it scores strictly below everything before it and no
worse than everything after it. -/
theorem foldl_pickMin_none {α : Type} (f : α → ℚ) (l : List α)
    (h : l ≠ []) :
    ∃ e pre post, l.foldl (pickMin f) none = some e ∧
      l = pre ++ e :: post ∧
      (∀ x ∈ pre, f e < f x) ∧ (∀ x ∈ post, f e ≤ f x) := by
  match l with
  | a :: t =>
    rw [List.foldl_cons]
    obtain ⟨e, he, hch⟩ := foldl_pickMin_some f t a
    rcases hch with ⟨rfl, hall⟩ | ⟨pre, post, heq, hlt, hpre, hpost⟩
    · exact ⟨e, [], t, he, rfl, by simp, hall⟩
    · refine ⟨e, a :: pre, post, he, by simp [heq], ?_, hpost⟩
      intro x hx
      rcases List.mem_cons.mp hx with rfl | hx
      · exact hlt
      · exact hpre x hx

/-- A fold whose body skips the elements failing a test equals the fold of
the filtered list. -/
theorem foldl_skip_eq_foldl_filter {α β : Type} (p : α → Bool)
    (g : β → α → β) (l : List α) : ∀ (acc : β),
    l.foldl (fun b e => if p e then g b e else b) acc =
      (l.filter p).foldl g acc := by
  induction l with
  | nil => intro acc; rfl
  | cons a t ih =>
    intro acc
    by_cases hp : p a = true
    · rw [List.foldl_cons, List.filter_cons, if_pos hp, if_pos hp,
        List.foldl_cons]
      exact ih (g acc a)
    · rw [List.foldl_cons, List.filter_cons, if_neg hp, if_neg hp]
      exact ih acc

/-- find_closest_note is the pickMin fold over the survivors of both
rejection filters. -/
theorem find_closest_note_eq_pickMin (st : SystemState) (input_note : ℤ)
    (current_bar : ℤ) (current_beat : ℚ) :
    find_closest_note st input_note current_bar current_beat =
      (survivors st input_note current_bar current_beat).foldl
        (pickMin (score input_note current_beat)) none := by
  simp only [find_closest_note, survivors]
  by_cases hc : st.original_notes.filter
      (fun e => decide (|e.bar - current_bar| ≤ 1)) = []
  · rw [if_pos hc, hc, List.filter_nil, List.foldl_nil]
  · rw [if_neg hc, ← foldl_skip_eq_foldl_filter
      (fun e =>
        !(decide (|e.note - input_note| > st.pitch_correction_range)) &&
        !(decide (|e.beat - current_beat| >
          st.timing_tolerance * st.tempo / 60)))
      (pickMin (score input_note current_beat))
      (st.original_notes.filter (fun e => decide (|e.bar - current_bar| ≤ 1)))
      none]
    apply List.foldl_ext
    intro best e _
    by_cases h1 : |e.note - input_note| > st.pitch_correction_range
    · simp [h1]
    · by_cases h2 : |e.beat - current_beat| >
          st.timing_tolerance * st.tempo / 60
      · simp [h1, h2]
      · cases best with
        | none => simp [h1, h2, pickMin]
        | some b => simp [h1, h2, pickMin]

/-- C4: find_closest_note realizes NearestMatch: the candidate set is the
notes within one bar of the current bar; candidates out of pitch range or
out of the converted timing tolerance are rejected; a result exists
exactly when some candidate survives, and it is the survivor minimizing
0.7 * pitchDiff + 0.3 * beatDiff, earliest in timeline order on ties
(every earlier survivor scores strictly worse, every later one no
better); a zero-scoring survivor forces a zero-scoring result; with no
survivor nothing is returned. -/
theorem C4_nearest_match (st : SystemState) (input_note : ℤ)
    (current_bar : ℤ) (current_beat : ℚ) :
    (find_closest_note st input_note current_bar current_beat = none ↔
      survivors st input_note current_bar current_beat = []) ∧
    (∀ e, find_closest_note st input_note current_bar current_beat =
        some e →
      ∃ pre post, survivors st input_note current_bar current_beat =
          pre ++ e :: post ∧
        (∀ x ∈ pre, score input_note current_beat e <
          score input_note current_beat x) ∧
        (∀ x ∈ post, score input_note current_beat e ≤
          score input_note current_beat x)) ∧
    ((∃ e0 ∈ survivors st input_note current_bar current_beat,
        score input_note current_beat e0 = 0) →
      ∃ e, find_closest_note st input_note current_bar current_beat =
          some e ∧ score input_note current_beat e = 0) := by
  rw [find_closest_note_eq_pickMin]
  refine ⟨?_, ?_, ?_⟩
  · constructor
    · intro h
      by_contra hne
      obtain ⟨e, pre, post, he, _⟩ :=
        foldl_pickMin_none (score input_note current_beat)
          (survivors st input_note current_bar current_beat) hne
      rw [h] at he
      exact absurd he (by simp)
    · intro h
      rw [h]
      rfl
  · intro e he
    have hne : survivors st input_note current_bar current_beat ≠ [] := by
      intro h
      rw [h] at he
      exact absurd he (by simp)
    obtain ⟨e', pre, post, he', heq, hpre, hpost⟩ :=
      foldl_pickMin_none (score input_note current_beat)
        (survivors st input_note current_bar current_beat) hne
    rw [he] at he'
    obtain rfl : e = e' := Option.some_inj.mp he'
    exact ⟨pre, post, heq, hpre, hpost⟩
  · rintro ⟨e0, he0m, he0s⟩
    have hne : survivors st input_note current_bar current_beat ≠ [] :=
      List.ne_nil_of_mem he0m
    obtain ⟨e, pre, post, he, heq, hpre, hpost⟩ :=
      foldl_pickMin_none (score input_note current_beat)
        (survivors st input_note current_bar current_beat) hne
    refine ⟨e, he, le_antisymm ?_ (score_nonneg input_note current_beat e)⟩
    rw [heq] at he0m
    rcases List.mem_append.mp he0m with hm | hm
    · have := hpre e0 hm
      rw [he0s] at this
      exact le_of_lt this
    · rcases List.mem_cons.mp hm with rfl | hm
      · exact le_of_eq he0s
      · have := hpost e0 hm
        rw [he0s] at this
        exact this

/-- Witness for C4: in the two-note session at bar 0 beat 1, input pitch
64 scores 0 against the second note, so a zero-scoring note is returned. -/
theorem C4_nearest_match_witness :
    ∃ e, find_closest_note melState 64 0 1 = some e ∧ score 64 1 e = 0 := by
  apply (C4_nearest_match melState 64 0 1).2.2
  refine ⟨noteB, ?_, ?_⟩
  · apply List.mem_filter.mpr
    constructor
    · apply List.mem_filter.mpr
      constructor
      · simp [melState, baseState, noteB]
      · simp [noteB]
    · simp [noteB, melState, baseState]
      norm_num
  · simp [score, noteB]

end DogMidi
